import Mathlib

/-!
Verification development for the housing-price reinforcement-learning core
(`state_encoder.py`, `environment.py`, `qlearning.py`, `api.py`).

The Python modules are shallowly embedded: feature-table rows become a `Row`
structure, the pandas DataFrame becomes a `List Row`, the environment's
mutable pointer becomes explicit state passing, Python floats become `ℚ`
(NaN is modelled by `Option`), and fallible operations (`raise`) return
`Option`.
-/

namespace RLProj

/-! ### state_encoder.py -/

/-- `encode_direction`: `DIRECTION_TO_ID = {-1: 0, 0: 1, 1: 2}` with
`.get(d, 1)` fallback for unrecognized values. -/
def encode_direction (d : Int) : Nat :=
  if d = -1 then 0 else if d = 0 then 1 else if d = 1 then 2 else 1

/-- `decode_direction`: `ID_TO_DIRECTION = {0: -1, 1: 0, 2: 1}` with
`.get(s, 0)` fallback. -/
def decode_direction (s : Int) : Int :=
  if s = 0 then -1 else if s = 1 then 0 else if s = 2 then 1 else 0

/-- `encode_rate_level`: clips the level into the range 0..2. -/
def encode_rate_level (x : Int) : Nat :=
  if x < 0 then 0 else if x > 2 then 2 else x.toNat

/-- `encode_pop_trend`: `POP_TREND_TO_ID = {-1: 0, 0: 1, 1: 2}` with
`.get(t, 1)` fallback. -/
def encode_pop_trend (t : Int) : Nat :=
  if t = -1 then 0 else if t = 0 then 1 else if t = 1 then 2 else 1

/-- `encode_state`: `state_id = dir_id * 9 + rate_id * 3 + pop_id`. -/
def encode_state (direction rate_level pop_trend : Int) : Nat :=
  encode_direction direction * 9 + encode_rate_level rate_level * 3 +
    encode_pop_trend pop_trend

/-! ### The monthly feature table (output of `preprocess.py` +
`macro_features.py`, consumed by `environment.py` and `api.py`).
`pct_change` is `none` for a NaN entry (pandas leaves the first row NaN). -/

structure Row where
  ym : String
  mean_price : ℚ
  pct_change : Option ℚ
  direction : Int
  rate_level : Int
  pop_trend : Int
deriving Repr, DecidableEq, Inhabited

/-- `df.loc[i]` on the embedded table (total; all uses are in range). -/
def rowAt (df : List Row) (i : Nat) : Row := df.getD i default

/-- `HousingEnv._get_state(idx)`. -/
def getState (df : List Row) (i : Nat) : Nat :=
  encode_state (rowAt df i).direction (rowAt df i).rate_level
    (rowAt df i).pop_trend

/-! ### environment.py -/

structure HousingEnv where
  df : List Row
  current_idx : Option Nat
deriving Repr, DecidableEq

/-- `self.max_step_index = self.num_rows - 2` (Python int arithmetic). -/
def HousingEnv.maxStepIndex (env : HousingEnv) : Int :=
  (env.df.length : Int) - 2

/-- `HousingEnv.reset()`: rewinds to index 0; raises (`none`) on fewer than
2 rows. -/
def HousingEnv.reset (env : HousingEnv) : Option (Nat × HousingEnv) :=
  if env.df.length < 2 then none
  else some (getState env.df 0, ⟨env.df, some 0⟩)

/-- The observable part of a step's return value `(next_state, reward,
done)`; the `info` dict is diagnostic only and carries no claim content. -/
structure StepOut where
  next_state : Nat
  reward : Int
  done : Bool
deriving Repr, DecidableEq

/-- The `true_action_id` computed inside `HousingEnv.step` from row `t+1`'s
direction: negative ↦ 0, positive ↦ 2, zero ↦ 1. -/
def trueActionId (d : Int) : Int :=
  if d < 0 then 0 else if d > 0 then 2 else 1

/-- `HousingEnv.step(action)`. `none` models the `RuntimeError` raised when
`reset()` has not been called. -/
def HousingEnv.step (env : HousingEnv) (action : Int) :
    Option (StepOut × HousingEnv) :=
  match env.current_idx with
  | none => none
  | some idx =>
    if (idx : Int) > env.maxStepIndex then
      some (⟨getState env.df idx, 0, true⟩, env)
    else
      let tn := idx + 1
      let reward : Int :=
        if action = trueActionId (rowAt env.df tn).direction then 1 else -1
      some (⟨getState env.df tn, reward,
             decide ((tn : Int) ≥ env.maxStepIndex + 1)⟩,
            ⟨env.df, some tn⟩)

/-! ### qlearning.py -/

/-- The Q-table `np.zeros((num_states, num_actions))`, embedded as a total
function; training only touches indices below `(27, 3)`. -/
abbrev QTable := Nat → Nat → ℚ

/-- `np.argmax(Q[s])` over the 3 actions: first index of the maximum. -/
def argmaxRow (Q : QTable) (s : Nat) : Nat :=
  if Q s 0 ≥ Q s 1 then (if Q s 0 ≥ Q s 2 then 0 else 2)
  else (if Q s 1 ≥ Q s 2 then 1 else 2)

/-- `np.max(Q[s])` over the 3 actions. -/
def rowMax (Q : QTable) (s : Nat) : ℚ :=
  max (max (Q s 0) (Q s 1)) (Q s 2)

/-- The all-zero table. -/
def Qzero : QTable := fun _ _ => 0

/-- Result of `run_greedy_policy`: total reward, steps executed, and the
loop's final `done` flag. -/
structure GreedyOut where
  total_reward : Int
  steps : Nat
  done : Bool
deriving Repr, DecidableEq

/-- The `while not done and steps < max_steps` loop of `run_greedy_policy`,
with `fuel = max_steps - steps` remaining iterations. -/
def greedyLoop (Q : QTable) : Nat → HousingEnv → Nat → Nat → Int →
    Option GreedyOut
  | 0, _, _, steps, total => some ⟨total, steps, false⟩
  | Nat.succ f, env, state, steps, total =>
    match env.step (argmaxRow Q state : Int) with
    | none => none
    | some (out, env2) =>
      if out.done then some ⟨total + out.reward, steps + 1, true⟩
      else greedyLoop Q f env2 out.next_state (steps + 1) (total + out.reward)

/-- `run_greedy_policy(env, Q, max_steps)`. -/
def run_greedy_policy (env : HousingEnv) (Q : QTable) (max_steps : Nat) :
    Option GreedyOut :=
  match env.reset with
  | none => none
  | some (s0, env1) => greedyLoop Q max_steps env1 s0 0 0

/-- `epsilon = max(epsilon_end, epsilon_start * (epsilon_decay ** ep))`,
computed once per episode in `train_q_learning`. -/
def epsilonAt (epsilon_start epsilon_end epsilon_decay : ℚ) (ep : Nat) : ℚ :=
  max epsilon_end (epsilon_start * epsilon_decay ^ ep)

/-- The Q-update of `train_q_learning`:
`Q[s, a] += alpha * (reward + gamma * max(Q[s2]) - Q[s, a])`. -/
def qUpdate (Q : QTable) (s a : Nat) (r : ℚ) (s2 : Nat) (alpha gamma : ℚ) :
    QTable :=
  fun s0 a0 =>
    if s0 = s ∧ a0 = a then
      Q s a + alpha * (r + gamma * rowMax Q s2 - Q s a)
    else Q s0 a0

/-- One episode of `train_q_learning`'s inner `while not done` loop.
`rand`/`randAct` are the exploration draws (`np.random.rand()` and
`np.random.randint`), indexed by the step counter `i`; `fuel` bounds the
iteration count (the trainer passes the table length, which suffices). -/
def episodeLoop (alpha gamma epsilon : ℚ) (rand : Nat → ℚ)
    (randAct : Nat → Nat) :
    Nat → HousingEnv → Nat → Nat → QTable → ℚ → Option (QTable × ℚ)
  | 0, _, _, _, Q, total => some (Q, total)
  | Nat.succ f, env, state, i, Q, total =>
    let action : Nat :=
      if rand i < epsilon then randAct i else argmaxRow Q state
    match env.step (action : Int) with
    | none => none
    | some (out, env2) =>
      let Q2 := qUpdate Q state action (out.reward : ℚ) out.next_state
        alpha gamma
      let total2 := total + (out.reward : ℚ)
      if out.done then some (Q2, total2)
      else episodeLoop alpha gamma epsilon rand randAct f env2
        out.next_state (i + 1) Q2 total2

/-- The `for ep in range(episodes)` loop of `train_q_learning`; carries the
current episode index, the table, and the reversed reward list. -/
def trainLoop (df : List Row) (alpha gamma es ee dc : ℚ)
    (rand : Nat → Nat → ℚ) (randAct : Nat → Nat → Nat) :
    Nat → Nat → QTable → List ℚ → Option (QTable × List ℚ)
  | 0, _, Q, rs => some (Q, rs.reverse)
  | Nat.succ rem, ep, Q, rs =>
    match HousingEnv.reset ⟨df, none⟩ with
    | none => none
    | some (s0, env0) =>
      match episodeLoop alpha gamma (epsilonAt es ee dc ep) (rand ep)
        (randAct ep) df.length env0 s0 0 Q 0 with
      | none => none
      | some (Q2, total) => trainLoop df alpha gamma es ee dc rand randAct
          rem (ep + 1) Q2 (total :: rs)

/-- `train_q_learning(env, 27, 3, episodes, alpha, gamma, es, ee, dc)` with
the exploration randomness supplied by oracles. -/
def train_q_learning (df : List Row) (episodes : Nat)
    (alpha gamma es ee dc : ℚ) (rand : Nat → Nat → ℚ)
    (randAct : Nat → Nat → Nat) : Option (QTable × List ℚ) :=
  trainLoop df alpha gamma es ee dc rand randAct episodes 0 Qzero []

/-! ### api.py: `simulate_future_12months` -/

/-- A monthly calendar period as handled by `pd.Period(ym, freq="M")`. -/
structure Period where
  year : Int
  month : Int
deriving Repr, DecidableEq

instance : Inhabited Period := ⟨⟨0, 1⟩⟩

/-- `period + 1`: advance one calendar month, wrapping the year. -/
def Period.next (p : Period) : Period :=
  if p.month ≥ 12 then ⟨p.year + 1, 1⟩ else ⟨p.year, p.month + 1⟩

/-- Left-iterated `Period.next`. -/
def Period.iterNext (p : Period) : Nat → Period
  | 0 => p
  | Nat.succ n => Period.iterNext p.next n

/-- Reads a nonempty all-digit string as a number. -/
def digitsToNat (l : List Char) : Option Nat :=
  if l ≠ [] ∧ l.all Char.isDigit then
    some (l.foldl (fun acc c => acc * 10 + (c.toNat - 48)) 0)
  else none

/-- Split a character list at every `-`. -/
def splitOnDash : List Char → List (List Char)
  | [] => [[]]
  | c :: rest =>
    match splitOnDash rest with
    | [] => [[c]]
    | h :: t => if c = '-' then [] :: h :: t else (c :: h) :: t

/-- `pd.Period(ym, freq="M")` on a `YYYY-MM` label; `none` models the parse
failure that sends the code down its relative-label fallback branch. -/
def parseYM (s : String) : Option Period :=
  match splitOnDash s.data with
  | [ys, ms] =>
    match digitsToNat ys, digitsToNat ms with
    | some y, some m =>
      if 1 ≤ m ∧ m ≤ 12 then some ⟨(y : Int), (m : Int)⟩ else none
    | _, _ => none
  | _ => none

/-- `df.loc[df["direction"] == d, "pct_change"].mean()`: pandas skips NaN
entries and yields NaN (`none`) on an empty selection. -/
def meanPct (df : List Row) (d : Int) : Option ℚ :=
  let vals := (df.filter (fun r => r.direction = d)).filterMap
    (fun r => r.pct_change)
  if vals.isEmpty then none else some (vals.sum / (vals.length : ℚ))

/-- `up_mean` after the `np.isfinite` fallback: `0.01` when undefined. -/
def upMeanOf (df : List Row) : ℚ := (meanPct df 1).getD (1/100)

/-- `flat_mean` after the `np.isfinite` fallback: `0.0` when undefined. -/
def flatMeanOf (df : List Row) : ℚ := (meanPct df 0).getD 0

/-- `down_mean` after the `np.isfinite` fallback: `-0.01` when undefined. -/
def downMeanOf (df : List Row) : ℚ := (meanPct df (-1)).getD (-(1/100))

/-- One record of the 12-month scenario forecast. `ym` is `some` of the
advanced period when the last label parsed, `none` when the code emits its
relative `"+k"` label instead; the two Korean label columns are derived
bijectively from `predicted_direction` and the action id and are omitted. -/
structure ScenarioRec where
  step : Nat
  ym : Option Period
  predicted_direction : Int
  applied_return : ℚ
  scenario_price : ℚ
deriving Repr, DecidableEq

instance : Inhabited ScenarioRec := ⟨⟨0, none, 0, 0, 0⟩⟩

/-- `action_to_direction = {0: -1, 1: 0, 2: 1}` (the argmax action is
always in 0..2). -/
def actionToDirection (a : Nat) : Int :=
  if a = 0 then -1 else if a = 1 then 0 else 1

/-- The `for step in range(1, 13)` loop of `simulate_future_12months`:
`rate_level` and `pop_trend` stay frozen, the direction component follows
the prediction, the price compounds the applied return. -/
def simLoop (Q : QTable) (rl pt : Int) (um fm dm : ℚ) :
    Nat → Nat → Int → ℚ → Option Period → List ScenarioRec →
      List ScenarioRec
  | 0, _, _, _, _, acc => acc.reverse
  | Nat.succ rem, step, dir, price, per, acc =>
    let s := encode_state dir rl pt
    let a := argmaxRow Q s
    let pd := actionToDirection a
    let ar := if pd = 1 then um else if pd = 0 then fm else dm
    let price2 := price * (1 + ar)
    let per2 := per.map Period.next
    simLoop Q rl pt um fm dm rem (step + 1) pd price2 per2
      (⟨step, per2, pd, ar, price2⟩ :: acc)

/-- `simulate_future_12months(state_df, Q)`. -/
def simulate_future_12months (df : List Row) (Q : QTable) :
    List ScenarioRec :=
  if df.isEmpty then []
  else
    simLoop Q (rowAt df (df.length - 1)).rate_level
      (rowAt df (df.length - 1)).pop_trend
      (upMeanOf df) (flatMeanOf df) (downMeanOf df) 12 1
      (rowAt df (df.length - 1)).direction
      (rowAt df (df.length - 1)).mean_price
      (parseYM (rowAt df (df.length - 1)).ym) []

/-- The stream of `ym` labels the scenario loop emits from period state
`per`: each is its predecessor advanced by one month. -/
def periodsFrom (per : Option Period) : Nat → List (Option Period)
  | 0 => []
  | Nat.succ rem => (per.map Period.next) :: periodsFrom (per.map Period.next) rem

/-! ### Concrete tables for witnesses -/

/-- The spec's synthetic 3-row table with directions [flat, up, down]. -/
def dfFlatUpDown : List Row :=
  [⟨"2024-01", 100, none, 0, 1, 0⟩,
   ⟨"2024-02", 102, some (1/50), 1, 1, 0⟩,
   ⟨"2024-03", 100, some (-1/51), -1, 1, 0⟩]

/-- A 2-row table whose `direction` column is all-flat, so the up and down
categories have zero historical rows. -/
def dfAllFlat : List Row :=
  [⟨"2024-11", 100, none, 0, 1, 0⟩,
   ⟨"2024-12", 100, some 0, 0, 1, 0⟩]

end RLProj

namespace RLProj

/-! ### Helper lemmas -/

theorem encode_direction_le_two (d : Int) : encode_direction d ≤ 2 := by
  unfold encode_direction
  split <;> [omega; split <;> [omega; split <;> omega]]

theorem encode_rate_level_le_two (x : Int) : encode_rate_level x ≤ 2 := by
  unfold encode_rate_level
  split
  · omega
  · split
    · omega
    · omega

theorem encode_pop_trend_le_two (t : Int) : encode_pop_trend t ≤ 2 := by
  unfold encode_pop_trend
  split <;> [omega; split <;> [omega; split <;> omega]]

theorem encode_state_le_26 (d r p : Int) : encode_state d r p ≤ 26 := by
  have h1 := encode_direction_le_two d
  have h2 := encode_rate_level_le_two r
  have h3 := encode_pop_trend_le_two p
  unfold encode_state
  omega

/-- Closed form of a non-terminal step (current index `t ≤ n - 2`). -/
theorem step_nonterminal (df : List Row) (t : Nat) (a : Int)
    (ht : t + 2 ≤ df.length) :
    HousingEnv.step ⟨df, some t⟩ a =
      some (⟨getState df (t + 1),
             if a = trueActionId (rowAt df (t + 1)).direction then 1 else -1,
             decide (t + 2 ≥ df.length)⟩,
            ⟨df, some (t + 1)⟩) := by
  show (if ((t : Nat) : Int) > HousingEnv.maxStepIndex ⟨df, some t⟩ then _
    else _) = _
  rw [if_neg (by
    simp only [HousingEnv.maxStepIndex]
    omega)]
  simp only [HousingEnv.maxStepIndex]
  have hb : decide ((((t + 1 : Nat) : Int)) ≥ ((df.length : Int)) - 2 + 1) =
      decide (t + 2 ≥ df.length) := by
    rw [decide_eq_decide]
    push_cast
    omega
  rw [hb]

/-- Unfolding equation for one iteration of the greedy-rollout loop. -/
theorem greedyLoop_succ (Q : QTable) (f : Nat) (env : HousingEnv)
    (s steps : Nat) (total : Int) :
    greedyLoop Q (f + 1) env s steps total =
      match env.step (argmaxRow Q s : Int) with
      | none => none
      | some (out, env2) =>
        if out.done then some ⟨total + out.reward, steps + 1, true⟩
        else greedyLoop Q f env2 out.next_state (steps + 1)
          (total + out.reward) := rfl

/-- From a non-terminal index `t` with `t + k + 2 = n`, the greedy loop
executes exactly `k + 1` further steps and exits with `done = true`. -/
theorem greedyLoop_run (Q : QTable) (df : List Row) :
    ∀ (k fuel t steps s : Nat) (total : Int),
      t + k + 2 = df.length → k + 1 ≤ fuel →
      ∃ tot, greedyLoop Q fuel ⟨df, some t⟩ s steps total =
        some ⟨tot, steps + k + 1, true⟩ := by
  intro k
  induction k with
  | zero =>
    intro fuel t steps s total hn hf
    cases fuel with
    | zero => omega
    | succ f =>
      refine ⟨total + (if (argmaxRow Q s : Int) =
        trueActionId (rowAt df (t + 1)).direction then 1 else -1), ?_⟩
      rw [greedyLoop_succ, step_nonterminal df t _ (by omega)]
      have hdone : decide (t + 2 ≥ df.length) = true := by
        rw [decide_eq_true_eq]
        omega
      simp only [hdone, if_true]
  | succ k ih =>
    intro fuel t steps s total hn hf
    cases fuel with
    | zero => omega
    | succ f =>
      rw [greedyLoop_succ, step_nonterminal df t _ (by omega)]
      have hdone : decide (t + 2 ≥ df.length) = false := by
        rw [decide_eq_false_iff_not]
        omega
      simp only [hdone, if_false]
      obtain ⟨tot, htot⟩ := ih f (t + 1) (steps + 1) (getState df (t + 1))
        (total + (if (argmaxRow Q s : Int) =
          trueActionId (rowAt df (t + 1)).direction then 1 else -1))
        (by omega) (by omega)
      refine ⟨tot, ?_⟩
      rw [htot]
      have harith : steps + 1 + k + 1 = steps + (k + 1) + 1 := by omega
      rw [harith]
      simp

/-- Unfolding equation for one iteration of the scenario loop. -/
theorem simLoop_succ (Q : QTable) (rl pt : Int) (um fm dm : ℚ)
    (rem step : Nat) (dir : Int) (price : ℚ) (per : Option Period)
    (acc : List ScenarioRec) :
    simLoop Q rl pt um fm dm (rem + 1) step dir price per acc =
      simLoop Q rl pt um fm dm rem (step + 1)
        (actionToDirection (argmaxRow Q (encode_state dir rl pt)))
        (price * (1 +
          (if actionToDirection (argmaxRow Q (encode_state dir rl pt)) = 1
           then um
           else if actionToDirection (argmaxRow Q (encode_state dir rl pt))
             = 0 then fm else dm)))
        (per.map Period.next)
        (⟨step, per.map Period.next,
          actionToDirection (argmaxRow Q (encode_state dir rl pt)),
          (if actionToDirection (argmaxRow Q (encode_state dir rl pt)) = 1
           then um
           else if actionToDirection (argmaxRow Q (encode_state dir rl pt))
             = 0 then fm else dm),
          price * (1 +
          (if actionToDirection (argmaxRow Q (encode_state dir rl pt)) = 1
           then um
           else if actionToDirection (argmaxRow Q (encode_state dir rl pt))
             = 0 then fm else dm))⟩ :: acc) := rfl

theorem periodsFrom_length (per : Option Period) :
    ∀ n, (periodsFrom per n).length = n := by
  intro n
  induction n generalizing per with
  | zero => rfl
  | succ n ih => simp [periodsFrom, ih]

theorem periodsFrom_some_get (p : Period) :
    ∀ n i, i < n → (periodsFrom (some p) n)[i]? =
      some (some (Period.iterNext p (i + 1))) := by
  intro n
  induction n generalizing p with
  | zero => intro i h; omega
  | succ n ih =>
    intro i h
    cases i with
    | zero => simp [periodsFrom, Period.iterNext]
    | succ i =>
      have hstep : (periodsFrom (some p) (n + 1))[i + 1]? =
          (periodsFrom (some p.next) n)[i]? := by
        simp [periodsFrom]
      rw [hstep, ih p.next i (by omega)]
      simp [Period.iterNext]

theorem iterNext_succ (p : Period) :
    ∀ n, Period.iterNext p (n + 1) = (Period.iterNext p n).next := by
  intro n
  induction n generalizing p with
  | zero => rfl
  | succ n ih => exact ih p.next

/-- One month forward is strictly later in (year, month) lexicographic
order. -/
theorem Period.lt_next (q : Period) :
    q.year < q.next.year ∨
      (q.year = q.next.year ∧ q.month < q.next.month) := by
  unfold Period.next
  split
  · exact Or.inl (lt_add_one q.year)
  · exact Or.inr ⟨rfl, lt_add_one q.month⟩

/-- The `ym` column of the scenario loop's output is the month-by-month
advance of the starting period state. -/
theorem simLoop_map_ym (Q : QTable) (rl pt : Int) (um fm dm : ℚ) :
    ∀ (rem step : Nat) (dir : Int) (price : ℚ) (per : Option Period)
      (acc : List ScenarioRec),
      (simLoop Q rl pt um fm dm rem step dir price per acc).map
        ScenarioRec.ym =
        acc.reverse.map ScenarioRec.ym ++ periodsFrom per rem := by
  intro rem
  induction rem with
  | zero =>
    intro step dir price per acc
    simp [simLoop, periodsFrom]
  | succ rem ih =>
    intro step dir price per acc
    rw [simLoop_succ, ih]
    simp [periodsFrom, List.map_append]

/-- Every record the scenario loop emits carries the applied return
selected from (up, flat, down) means by its predicted direction. -/
theorem simLoop_applied (Q : QTable) (rl pt : Int) (um fm dm : ℚ) :
    ∀ (rem step : Nat) (dir : Int) (price : ℚ) (per : Option Period)
      (acc : List ScenarioRec),
      (∀ rec ∈ acc, rec.applied_return =
        (if rec.predicted_direction = 1 then um
         else if rec.predicted_direction = 0 then fm else dm)) →
      ∀ rec ∈ simLoop Q rl pt um fm dm rem step dir price per acc,
        rec.applied_return =
          (if rec.predicted_direction = 1 then um
           else if rec.predicted_direction = 0 then fm else dm) := by
  intro rem
  induction rem with
  | zero =>
    intro step dir price per acc hacc rec hrec
    simp only [simLoop, List.mem_reverse] at hrec
    exact hacc rec hrec
  | succ rem ih =>
    intro step dir price per acc hacc rec hrec
    rw [simLoop_succ] at hrec
    refine ih _ _ _ _ _ ?_ rec hrec
    intro rec2 hrec2
    rcases List.mem_cons.mp hrec2 with h | h
    · subst h
      rfl
    · exact hacc rec2 h

/-! ### Lemmas for the Q-table bound invariant -/

/-- `np.max` over a row of entries bounded in absolute value is itself
bounded. -/
theorem abs_rowMax_le (Q : QTable) (s : Nat) (B : ℚ)
    (h : ∀ a, |Q s a| ≤ B) : |rowMax Q s| ≤ B := by
  have h0 := abs_le.mp (h 0)
  have h1 := abs_le.mp (h 1)
  have h2 := abs_le.mp (h 2)
  rw [abs_le]
  constructor
  · calc -B ≤ Q s 0 := h0.1
      _ ≤ max (Q s 0) (Q s 1) := le_max_left _ _
      _ ≤ rowMax Q s := le_max_left _ _
  · exact max_le (max_le h0.2 h1.2) h2.2

/-- A single Q-update preserves the bound `|Q| ≤ 1 / (1 - γ)` for rewards
of magnitude at most 1, learning rate in `[0, 1]`, and discount in
`[0, 1)`. -/
theorem qUpdate_bound (Q : QTable) (s a s2 : Nat) (r alpha gamma : ℚ)
    (ha0 : 0 ≤ alpha) (ha1 : alpha ≤ 1) (hg0 : 0 ≤ gamma) (hg1 : gamma < 1)
    (hr : |r| ≤ 1) (hQ : ∀ u b, |Q u b| ≤ 1 / (1 - gamma)) :
    ∀ u b, |qUpdate Q s a r s2 alpha gamma u b| ≤ 1 / (1 - gamma) := by
  intro u b
  simp only [qUpdate]
  split
  · have hgpos : (0 : ℚ) < 1 - gamma := by linarith
    have hBg : (1 - gamma) * (1 / (1 - gamma)) = 1 := by
      field_simp
    have hM : |rowMax Q s2| ≤ 1 / (1 - gamma) :=
      abs_rowMax_le Q s2 _ (fun a2 => hQ s2 a2)
    have hq := hQ s a
    have h2 : |r + gamma * rowMax Q s2| ≤ 1 + gamma * (1 / (1 - gamma)) := by
      calc |r + gamma * rowMax Q s2|
          ≤ |r| + |gamma * rowMax Q s2| := abs_add _ _
        _ = |r| + gamma * |rowMax Q s2| := by
            rw [abs_mul, abs_of_nonneg hg0]
        _ ≤ 1 + gamma * (1 / (1 - gamma)) := by
            have := mul_le_mul_of_nonneg_left hM hg0
            linarith
    have hrw : Q s a + alpha * (r + gamma * rowMax Q s2 - Q s a) =
        (1 - alpha) * Q s a + alpha * (r + gamma * rowMax Q s2) := by ring
    rw [hrw]
    calc |(1 - alpha) * Q s a + alpha * (r + gamma * rowMax Q s2)|
        ≤ |(1 - alpha) * Q s a| + |alpha * (r + gamma * rowMax Q s2)| :=
          abs_add _ _
      _ = (1 - alpha) * |Q s a| + alpha * |r + gamma * rowMax Q s2| := by
          rw [abs_mul, abs_mul, abs_of_nonneg (by linarith : (0:ℚ) ≤ 1 - alpha),
            abs_of_nonneg ha0]
      _ ≤ (1 - alpha) * (1 / (1 - gamma)) +
          alpha * (1 + gamma * (1 / (1 - gamma))) := by
          have e1 := mul_le_mul_of_nonneg_left hq
            (by linarith : (0:ℚ) ≤ 1 - alpha)
          have e2 := mul_le_mul_of_nonneg_left h2 ha0
          linarith
      _ = 1 / (1 - gamma) +
          alpha * (1 - (1 - gamma) * (1 / (1 - gamma))) := by ring
      _ = 1 / (1 - gamma) := by rw [hBg]; ring
  · exact hQ u b

/-- Every reward `HousingEnv.step` can return is 0, +1 or -1. -/
theorem step_reward_cases (env : HousingEnv) (a : Int) (out : StepOut)
    (env2 : HousingEnv) (h : env.step a = some (out, env2)) :
    out.reward = 0 ∨ out.reward = 1 ∨ out.reward = -1 := by
  unfold HousingEnv.step at h
  cases hc : env.current_idx with
  | none =>
    rw [hc] at h
    simp at h
  | some idx =>
    rw [hc] at h
    simp only at h
    split at h
    · simp only [Option.some.injEq, Prod.mk.injEq] at h
      rw [← h.1]
      exact Or.inl rfl
    · simp only [Option.some.injEq, Prod.mk.injEq] at h
      rw [← h.1]
      dsimp only
      split
      · exact Or.inr (Or.inl rfl)
      · exact Or.inr (Or.inr rfl)

/-- Rational form of the reward bound. -/
theorem step_reward_abs (env : HousingEnv) (a : Int) (out : StepOut)
    (env2 : HousingEnv) (h : env.step a = some (out, env2)) :
    |(out.reward : ℚ)| ≤ 1 := by
  rcases step_reward_cases env a out env2 h with h0 | h0 | h0 <;>
    rw [h0] <;> norm_num

/-- Unfolding equation for one iteration of the training episode loop. -/
theorem episodeLoop_succ (alpha gamma epsilon : ℚ) (rand : Nat → ℚ)
    (randAct : Nat → Nat) (f : Nat) (env : HousingEnv) (state i : Nat)
    (Q : QTable) (total : ℚ) :
    episodeLoop alpha gamma epsilon rand randAct (f + 1) env state i Q
      total =
      match env.step
        (((if rand i < epsilon then randAct i else argmaxRow Q state) :
          Nat) : Int) with
      | none => none
      | some (out, env2) =>
        if out.done then
          some (qUpdate Q state
            (if rand i < epsilon then randAct i else argmaxRow Q state)
            (out.reward : ℚ) out.next_state alpha gamma,
            total + (out.reward : ℚ))
        else episodeLoop alpha gamma epsilon rand randAct f env2
          out.next_state (i + 1)
          (qUpdate Q state
            (if rand i < epsilon then randAct i else argmaxRow Q state)
            (out.reward : ℚ) out.next_state alpha gamma)
          (total + (out.reward : ℚ)) := rfl

/-- The episode loop preserves the Q-table bound. -/
theorem episodeLoop_bound (alpha gamma epsilon : ℚ) (rand : Nat → ℚ)
    (randAct : Nat → Nat) (ha0 : 0 ≤ alpha) (ha1 : alpha ≤ 1)
    (hg0 : 0 ≤ gamma) (hg1 : gamma < 1) :
    ∀ (fuel : Nat) (env : HousingEnv) (state i : Nat) (Q : QTable)
      (total : ℚ) (Q2 : QTable) (total2 : ℚ),
      (∀ u b, |Q u b| ≤ 1 / (1 - gamma)) →
      episodeLoop alpha gamma epsilon rand randAct fuel env state i Q
        total = some (Q2, total2) →
      ∀ u b, |Q2 u b| ≤ 1 / (1 - gamma) := by
  intro fuel
  induction fuel with
  | zero =>
    intro env state i Q total Q2 total2 hQ heq
    simp only [episodeLoop, Option.some.injEq, Prod.mk.injEq] at heq
    rw [← heq.1]
    exact hQ
  | succ f ih =>
    intro env state i Q total Q2 total2 hQ heq
    rw [episodeLoop_succ] at heq
    cases hstep : env.step
        (((if rand i < epsilon then randAct i else argmaxRow Q state) :
          Nat) : Int) with
    | none =>
      rw [hstep] at heq
      simp at heq
    | some pr =>
      obtain ⟨out, env2⟩ := pr
      rw [hstep] at heq
      dsimp only at heq
      have hQ2 : ∀ u b, |qUpdate Q state
          (if rand i < epsilon then randAct i else argmaxRow Q state)
          (out.reward : ℚ) out.next_state alpha gamma u b| ≤
          1 / (1 - gamma) :=
        qUpdate_bound Q state _ out.next_state _ alpha gamma ha0 ha1 hg0
          hg1 (step_reward_abs env _ out env2 hstep) hQ
      by_cases hd : out.done = true
      · rw [if_pos hd] at heq
        simp only [Option.some.injEq, Prod.mk.injEq] at heq
        intro u b
        rw [← heq.1]
        exact hQ2 u b
      · rw [if_neg hd] at heq
        exact ih env2 out.next_state (i + 1) _ _ Q2 total2 hQ2 heq

/-- Unfolding equation for one episode of the training loop. -/
theorem trainLoop_succ (df : List Row) (alpha gamma es ee dc : ℚ)
    (rand : Nat → Nat → ℚ) (randAct : Nat → Nat → Nat) (rem ep : Nat)
    (Q : QTable) (rs : List ℚ) :
    trainLoop df alpha gamma es ee dc rand randAct (rem + 1) ep Q rs =
      match HousingEnv.reset ⟨df, none⟩ with
      | none => none
      | some (s0, env0) =>
        match episodeLoop alpha gamma (epsilonAt es ee dc ep) (rand ep)
          (randAct ep) df.length env0 s0 0 Q 0 with
        | none => none
        | some (Q2, total) => trainLoop df alpha gamma es ee dc rand
            randAct rem (ep + 1) Q2 (total :: rs) := rfl

/-- The training loop preserves the Q-table bound across episodes. -/
theorem trainLoop_bound (df : List Row) (alpha gamma es ee dc : ℚ)
    (rand : Nat → Nat → ℚ) (randAct : Nat → Nat → Nat)
    (ha0 : 0 ≤ alpha) (ha1 : alpha ≤ 1) (hg0 : 0 ≤ gamma)
    (hg1 : gamma < 1) :
    ∀ (rem ep : Nat) (Q : QTable) (rs : List ℚ) (Q2 : QTable)
      (rs2 : List ℚ),
      (∀ u b, |Q u b| ≤ 1 / (1 - gamma)) →
      trainLoop df alpha gamma es ee dc rand randAct rem ep Q rs =
        some (Q2, rs2) →
      ∀ u b, |Q2 u b| ≤ 1 / (1 - gamma) := by
  intro rem
  induction rem with
  | zero =>
    intro ep Q rs Q2 rs2 hQ heq
    simp only [trainLoop, Option.some.injEq, Prod.mk.injEq] at heq
    rw [← heq.1]
    exact hQ
  | succ rem ih =>
    intro ep Q rs Q2 rs2 hQ heq
    rw [trainLoop_succ] at heq
    cases hreset : HousingEnv.reset ⟨df, none⟩ with
    | none =>
      rw [hreset] at heq
      simp at heq
    | some pr =>
      obtain ⟨s0, env0⟩ := pr
      rw [hreset] at heq
      dsimp only at heq
      cases hep : episodeLoop alpha gamma (epsilonAt es ee dc ep) (rand ep)
          (randAct ep) df.length env0 s0 0 Q 0 with
      | none =>
        rw [hep] at heq
        simp at heq
      | some pr2 =>
        obtain ⟨Qep, total⟩ := pr2
        rw [hep] at heq
        exact ih (ep + 1) Qep (total :: rs) Q2 rs2
          (episodeLoop_bound alpha gamma _ _ _ ha0 ha1 hg0 hg1 df.length
            env0 s0 0 Q 0 Qep total hQ hep) heq

end RLProj

/-- Claim C3: for valid inputs, `encode_state` returns
`dir_id*9 + rate_id*3 + pop_id`, which lies in `[0, 26]`; the map is
injective on the 27 valid combinations; and `decode_direction` inverts
`encode_direction` on `{-1, 0, 1}`. -/
theorem claim_C3 :
    (∀ d r p : Int, (d = -1 ∨ d = 0 ∨ d = 1) → (r = 0 ∨ r = 1 ∨ r = 2) →
      (p = -1 ∨ p = 0 ∨ p = 1) →
      RLProj.encode_state d r p =
        RLProj.encode_direction d * 9 + RLProj.encode_rate_level r * 3 +
          RLProj.encode_pop_trend p ∧
      RLProj.encode_state d r p ≤ 26) ∧
    (∀ d r p d₂ r₂ p₂ : Int,
      (d = -1 ∨ d = 0 ∨ d = 1) → (r = 0 ∨ r = 1 ∨ r = 2) →
      (p = -1 ∨ p = 0 ∨ p = 1) →
      (d₂ = -1 ∨ d₂ = 0 ∨ d₂ = 1) → (r₂ = 0 ∨ r₂ = 1 ∨ r₂ = 2) →
      (p₂ = -1 ∨ p₂ = 0 ∨ p₂ = 1) →
      RLProj.encode_state d r p = RLProj.encode_state d₂ r₂ p₂ →
      d = d₂ ∧ r = r₂ ∧ p = p₂) ∧
    (∀ d : Int, (d = -1 ∨ d = 0 ∨ d = 1) →
      RLProj.decode_direction (RLProj.encode_direction d) = d) := by
  refine ⟨?_, ?_, ?_⟩
  · rintro d r p (rfl | rfl | rfl) (rfl | rfl | rfl) (rfl | rfl | rfl) <;>
      exact ⟨rfl, by decide⟩
  · rintro d r p d₂ r₂ p₂ (rfl | rfl | rfl) (rfl | rfl | rfl)
      (rfl | rfl | rfl) (rfl | rfl | rfl) (rfl | rfl | rfl)
      (rfl | rfl | rfl) <;> decide
  · rintro d (rfl | rfl | rfl) <;> decide

/-- Witness for C3 at concrete inputs. -/
theorem claim_C3_witness :
    RLProj.encode_state (-1) 0 (-1) =
      RLProj.encode_direction (-1) * 9 + RLProj.encode_rate_level 0 * 3 +
        RLProj.encode_pop_trend (-1) ∧
    RLProj.encode_state (-1) 0 (-1) ≤ 26 ∧
    RLProj.decode_direction (RLProj.encode_direction 1) = 1 := by
  refine ⟨?_, ?_, ?_⟩
  · exact (claim_C3.1 (-1) 0 (-1) (Or.inl rfl) (Or.inl rfl) (Or.inl rfl)).1
  · exact (claim_C3.1 (-1) 0 (-1) (Or.inl rfl) (Or.inl rfl) (Or.inl rfl)).2
  · exact claim_C3.2.2 1 (Or.inr (Or.inr rfl))

/-- Claim C9: `encode_state` is total with value in `[0, 26]`;
out-of-domain sub-dimensions are coerced: an unrecognized direction maps to
flat id 1, a rate level outside `[0, 2]` is clamped, an unrecognized
population trend maps to flat id 1. -/
theorem claim_C9 :
    (∀ d r p : Int, RLProj.encode_state d r p ≤ 26) ∧
    (∀ d : Int, d ≠ -1 → d ≠ 0 → d ≠ 1 → RLProj.encode_direction d = 1) ∧
    (∀ r : Int, (r < 0 → RLProj.encode_rate_level r = 0) ∧
      (r > 2 → RLProj.encode_rate_level r = 2) ∧
      RLProj.encode_rate_level r ≤ 2) ∧
    (∀ p : Int, p ≠ -1 → p ≠ 0 → p ≠ 1 → RLProj.encode_pop_trend p = 1) := by
  refine ⟨RLProj.encode_state_le_26, ?_, ?_, ?_⟩
  · intro d h1 h2 h3
    unfold RLProj.encode_direction
    rw [if_neg h1, if_neg h2, if_neg h3]
  · intro r
    refine ⟨?_, ?_, RLProj.encode_rate_level_le_two r⟩
    · intro h
      unfold RLProj.encode_rate_level
      rw [if_pos h]
    · intro h
      unfold RLProj.encode_rate_level
      rw [if_neg (by omega), if_pos h]
  · intro p h1 h2 h3
    unfold RLProj.encode_pop_trend
    rw [if_neg h1, if_neg h2, if_neg h3]

/-- Witness for C9 at concrete out-of-domain inputs. -/
theorem claim_C9_witness :
    RLProj.encode_state 7 (-5) 9 ≤ 26 ∧
    RLProj.encode_direction 7 = 1 ∧
    RLProj.encode_rate_level (-5) = 0 ∧
    RLProj.encode_rate_level 9 = 2 ∧
    RLProj.encode_pop_trend 9 = 1 :=
  ⟨claim_C9.1 7 (-5) 9,
   claim_C9.2.1 7 (by decide) (by decide) (by decide),
   (claim_C9.2.2.1 (-5)).1 (by decide),
   (claim_C9.2.2.1 9).2.1 (by decide),
   claim_C9.2.2.2 9 (by decide) (by decide) (by decide)⟩

/-- Claim C2: at a non-terminal index `t`, `step(a)` returns reward `+1`
exactly when `a` is the action id of row `t+1`'s direction label
(down ↦ 0, flat ↦ 1, up ↦ 2), else `-1`; the reward is always `±1`. -/
theorem claim_C2 (df : List RLProj.Row) (t : Nat) (a : Int)
    (ht : t + 2 ≤ df.length)
    (hd : (RLProj.rowAt df (t + 1)).direction = -1 ∨
          (RLProj.rowAt df (t + 1)).direction = 0 ∨
          (RLProj.rowAt df (t + 1)).direction = 1)
    (ha : a = 0 ∨ a = 1 ∨ a = 2) :
    ∃ out env2,
      RLProj.HousingEnv.step ⟨df, some t⟩ a = some (out, env2) ∧
      out.reward = (if a =
        ((RLProj.encode_direction (RLProj.rowAt df (t + 1)).direction :
          Nat) : Int) then 1 else -1) ∧
      (out.reward = 1 ∨ out.reward = -1) := by
  refine ⟨_, _, RLProj.step_nonterminal df t a ht, ?_, ?_⟩
  · rcases hd with h | h | h <;> rw [h] <;>
      norm_num [RLProj.trueActionId, RLProj.encode_direction]
  · dsimp only
    split
    · exact Or.inl rfl
    · exact Or.inr rfl

/-- Witness for C2: in the spec's [flat, up, down] table, action "up" (2)
at index 0 earns `+1`. -/
theorem claim_C2_witness :
    ∃ out env2,
      RLProj.HousingEnv.step ⟨RLProj.dfFlatUpDown, some 0⟩ 2 =
        some (out, env2) ∧
      out.reward = (if (2 : Int) =
        ((RLProj.encode_direction
          (RLProj.rowAt RLProj.dfFlatUpDown 1).direction : Nat) : Int)
        then 1 else -1) ∧
      (out.reward = 1 ∨ out.reward = -1) :=
  claim_C2 RLProj.dfFlatUpDown 0 2 (by decide) (by decide) (by decide)

/-- Claim C4: from the same non-terminal index `t`, any two actions lead to
the same next index `t+1` and the same next state — the action affects only
the reward. -/
theorem claim_C4 (df : List RLProj.Row) (t : Nat) (a₁ a₂ : Int)
    (ht : t + 2 ≤ df.length) :
    ∃ o₁ e₁ o₂ e₂,
      RLProj.HousingEnv.step ⟨df, some t⟩ a₁ = some (o₁, e₁) ∧
      RLProj.HousingEnv.step ⟨df, some t⟩ a₂ = some (o₂, e₂) ∧
      e₁.current_idx = some (t + 1) ∧ e₂.current_idx = some (t + 1) ∧
      o₁.next_state = RLProj.getState df (t + 1) ∧
      o₂.next_state = RLProj.getState df (t + 1) ∧
      o₁.next_state = o₂.next_state ∧ e₁ = e₂ :=
  ⟨_, _, _, _, RLProj.step_nonterminal df t a₁ ht,
   RLProj.step_nonterminal df t a₂ ht, rfl, rfl, rfl, rfl, rfl, rfl⟩

/-- Witness for C4 at a concrete table and action pair. -/
theorem claim_C4_witness :
    ∃ o₁ e₁ o₂ e₂,
      RLProj.HousingEnv.step ⟨RLProj.dfFlatUpDown, some 0⟩ 0 =
        some (o₁, e₁) ∧
      RLProj.HousingEnv.step ⟨RLProj.dfFlatUpDown, some 0⟩ 2 =
        some (o₂, e₂) ∧
      e₁.current_idx = some 1 ∧ e₂.current_idx = some 1 ∧
      o₁.next_state = RLProj.getState RLProj.dfFlatUpDown 1 ∧
      o₂.next_state = RLProj.getState RLProj.dfFlatUpDown 1 ∧
      o₁.next_state = o₂.next_state ∧ e₁ = e₂ :=
  claim_C4 RLProj.dfFlatUpDown 0 0 2 (by decide)

/-- Claim C7: once the current index has passed `n - 2`, every `step(a)`
returns reward 0 with `done = true`, the current encoded state, and leaves
the environment unchanged. -/
theorem claim_C7 (df : List RLProj.Row) (i : Nat) (a : Int)
    (hi : (df.length : Int) - 2 < (i : Int)) (hin : i < df.length) :
    RLProj.HousingEnv.step ⟨df, some i⟩ a =
      some (⟨RLProj.getState df i, 0, true⟩, ⟨df, some i⟩) := by
  show (if ((i : Nat) : Int) > RLProj.HousingEnv.maxStepIndex ⟨df, some i⟩
    then _ else _) = _
  rw [if_pos (by
    simp only [RLProj.HousingEnv.maxStepIndex]
    omega)]

/-- Witness for C7: stepping the finished 3-row episode (index 2) is a
no-op terminal signal. -/
theorem claim_C7_witness :
    RLProj.HousingEnv.step ⟨RLProj.dfFlatUpDown, some 2⟩ 0 =
      some (⟨RLProj.getState RLProj.dfFlatUpDown 2, 0, true⟩,
            ⟨RLProj.dfFlatUpDown, some 2⟩) :=
  claim_C7 RLProj.dfFlatUpDown 2 0 (by decide) (by decide)

/-- Counterexample to C1 as stated: for the 3-row table, the full greedy
rollout from `reset()` with step cap 3 performs 2 steps, not `3 - 2 = 1`. -/
theorem claim_C1_counterexample :
    RLProj.run_greedy_policy ⟨RLProj.dfFlatUpDown, none⟩ RLProj.Qzero 3 =
      some ⟨0, 2, true⟩ ∧
    (2 : Nat) ≠ RLProj.dfFlatUpDown.length - 2 := by
  constructor
  · rfl
  · decide

/-- Claim C1 (amended): for every table with `n ≥ 2` rows, a full greedy
rollout started by `reset()` with a step cap of at least `n` performs
exactly `n - 1` environment steps and then reports `done = true`. -/
theorem claim_C1 (df : List RLProj.Row) (Q : RLProj.QTable)
    (max_steps : Nat) (h2 : 2 ≤ df.length)
    (hcap : df.length ≤ max_steps) :
    ∃ tot, RLProj.run_greedy_policy ⟨df, none⟩ Q max_steps =
      some ⟨tot, df.length - 1, true⟩ := by
  obtain ⟨tot, htot⟩ := RLProj.greedyLoop_run Q df (df.length - 2)
    max_steps 0 0 (RLProj.getState df 0) 0 (by omega) (by omega)
  have harith : 0 + (df.length - 2) + 1 = df.length - 1 := by omega
  rw [harith] at htot
  refine ⟨tot, ?_⟩
  unfold RLProj.run_greedy_policy RLProj.HousingEnv.reset
  rw [if_neg (show ¬ df.length < 2 by omega)]
  exact htot

/-- Witness for the amended C1 on the concrete 3-row table: 2 steps. -/
theorem claim_C1_witness :
    ∃ tot, RLProj.run_greedy_policy ⟨RLProj.dfFlatUpDown, none⟩
      RLProj.Qzero 3 =
        some ⟨tot, RLProj.dfFlatUpDown.length - 1, true⟩ :=
  claim_C1 RLProj.dfFlatUpDown RLProj.Qzero 3 (by decide) (by decide)

/-- Claim C5: the per-episode exploration rate is
`max(epsilon_end, epsilon_start * epsilon_decay ^ k)`; for a decay factor
in `[0, 1]` and nonnegative start it is non-increasing in `k` and never
falls below `epsilon_end`. -/
theorem claim_C5 (es ee dc : ℚ) (h0 : 0 ≤ es) (hd0 : 0 ≤ dc)
    (hd1 : dc ≤ 1) (k : Nat) :
    RLProj.epsilonAt es ee dc k = max ee (es * dc ^ k) ∧
    ee ≤ RLProj.epsilonAt es ee dc k ∧
    RLProj.epsilonAt es ee dc (k + 1) ≤ RLProj.epsilonAt es ee dc k := by
  refine ⟨rfl, le_max_left _ _, ?_⟩
  unfold RLProj.epsilonAt
  apply max_le_max le_rfl
  exact mul_le_mul_of_nonneg_left
    (pow_le_pow_of_le_one hd0 hd1 (Nat.le_succ k)) h0

/-- Witness for C5 at the trainer's default schedule, episode 0. -/
theorem claim_C5_witness :
    RLProj.epsilonAt 1 (1/10) (99/100) 0 =
      max (1/10) (1 * (99/100) ^ 0) ∧
    (1/10 : ℚ) ≤ RLProj.epsilonAt 1 (1/10) (99/100) 0 ∧
    RLProj.epsilonAt 1 (1/10) (99/100) 1 ≤
      RLProj.epsilonAt 1 (1/10) (99/100) 0 :=
  claim_C5 1 (1/10) (99/100) (by norm_num) (by norm_num) (by norm_num) 0

/-- Claim C6: for a non-empty table whose last `ym` label parses as
`YYYY-MM`, the 12-month scenario forecast returns exactly 12 records whose
period labels are strictly increasing, each one calendar month after the
previous, the first one month after the last observed period. -/
theorem claim_C6 (df : List RLProj.Row) (Q : RLProj.QTable)
    (p : RLProj.Period) (recs : List RLProj.ScenarioRec)
    (hne : df ≠ [])
    (hp : RLProj.parseYM (RLProj.rowAt df (df.length - 1)).ym = some p)
    (hrecs : recs = RLProj.simulate_future_12months df Q) :
    recs.length = 12 ∧
    (recs[0]?).map RLProj.ScenarioRec.ym =
      some (some (RLProj.Period.next p)) ∧
    (∀ i : Nat, i + 1 < 12 → ∃ q : RLProj.Period,
      (recs[i]?).map RLProj.ScenarioRec.ym = some (some q) ∧
      (recs[i + 1]?).map RLProj.ScenarioRec.ym =
        some (some (RLProj.Period.next q)) ∧
      (q.year < (RLProj.Period.next q).year ∨
        (q.year = (RLProj.Period.next q).year ∧
          q.month < (RLProj.Period.next q).month))) := by
  have hsim : recs.map RLProj.ScenarioRec.ym =
      RLProj.periodsFrom (some p) 12 := by
    rw [hrecs]
    unfold RLProj.simulate_future_12months
    rw [if_neg (by simpa [List.isEmpty_iff] using hne), hp,
      RLProj.simLoop_map_ym]
    simp
  have hidx : ∀ i, i < 12 → (recs[i]?).map RLProj.ScenarioRec.ym =
      some (some (RLProj.Period.iterNext p (i + 1))) := by
    intro i hi
    have h := congrArg (fun l => l[i]?) hsim
    simp only at h
    rw [List.getElem?_map, RLProj.periodsFrom_some_get p 12 i hi] at h
    exact h
  refine ⟨?_, ?_, ?_⟩
  · have h := congrArg List.length hsim
    simpa [RLProj.periodsFrom_length] using h
  · exact hidx 0 (by omega)
  · intro i hi
    refine ⟨RLProj.Period.iterNext p (i + 1), hidx i (by omega), ?_,
      RLProj.Period.lt_next _⟩
    have h2 := hidx (i + 1) (by omega)
    rw [RLProj.iterNext_succ] at h2
    exact h2

/-- Witness for C6 on a concrete table ending at 2024-12: 12 records, the
first labelled 2025-01. -/
theorem claim_C6_witness :
    (RLProj.simulate_future_12months RLProj.dfAllFlat
      RLProj.Qzero).length = 12 ∧
    ((RLProj.simulate_future_12months RLProj.dfAllFlat
      RLProj.Qzero)[0]?).map RLProj.ScenarioRec.ym =
      some (some (RLProj.Period.next ⟨2024, 12⟩)) :=
  ⟨(claim_C6 RLProj.dfAllFlat RLProj.Qzero ⟨2024, 12⟩ _ (by decide)
      (by decide) rfl).1,
   (claim_C6 RLProj.dfAllFlat RLProj.Qzero ⟨2024, 12⟩ _ (by decide)
      (by decide) rfl).2.1⟩

/-- Claim C8: when a direction category has zero historical rows, the
scenario forecast applies the fixed default return for that direction
(`+0.01` up, `0` flat, `-0.01` down) and still yields its 12 records. -/
theorem claim_C8 (df : List RLProj.Row) (Q : RLProj.QTable) :
    (df.filter (fun r => r.direction = 1) = [] →
      RLProj.upMeanOf df = 1/100 ∧
      ∀ rec ∈ RLProj.simulate_future_12months df Q,
        rec.predicted_direction = 1 → rec.applied_return = 1/100) ∧
    (df.filter (fun r => r.direction = 0) = [] →
      RLProj.flatMeanOf df = 0 ∧
      ∀ rec ∈ RLProj.simulate_future_12months df Q,
        rec.predicted_direction = 0 → rec.applied_return = 0) ∧
    (df.filter (fun r => r.direction = -1) = [] →
      RLProj.downMeanOf df = -(1/100) ∧
      ∀ rec ∈ RLProj.simulate_future_12months df Q,
        rec.predicted_direction = -1 → rec.applied_return = -(1/100)) ∧
    (df ≠ [] → (RLProj.simulate_future_12months df Q).length = 12) := by
  have hall : ∀ rec ∈ RLProj.simulate_future_12months df Q,
      rec.applied_return =
        (if rec.predicted_direction = 1 then RLProj.upMeanOf df
         else if rec.predicted_direction = 0 then RLProj.flatMeanOf df
         else RLProj.downMeanOf df) := by
    intro rec hrec
    unfold RLProj.simulate_future_12months at hrec
    by_cases hdf : df.isEmpty
    · rw [if_pos hdf] at hrec
      simp at hrec
    · rw [if_neg hdf] at hrec
      refine RLProj.simLoop_applied _ _ _ _ _ _ _ _ _ _ _ _ ?_ rec hrec
      intro r hr
      simp at hr
  have hmean : ∀ d : Int, df.filter (fun r => r.direction = d) = [] →
      RLProj.meanPct df d = none := by
    intro d hfil
    unfold RLProj.meanPct
    rw [hfil]
    rfl
  refine ⟨?_, ?_, ?_, ?_⟩
  · intro hfil
    have hup : RLProj.upMeanOf df = 1/100 := by
      unfold RLProj.upMeanOf
      rw [hmean 1 hfil]
      rfl
    refine ⟨hup, ?_⟩
    intro rec hrec hpd
    rw [hall rec hrec, hpd, if_pos rfl, hup]
  · intro hfil
    have hflat : RLProj.flatMeanOf df = 0 := by
      unfold RLProj.flatMeanOf
      rw [hmean 0 hfil]
      rfl
    refine ⟨hflat, ?_⟩
    intro rec hrec hpd
    rw [hall rec hrec, hpd, if_neg (by decide), if_pos rfl, hflat]
  · intro hfil
    have hdown : RLProj.downMeanOf df = -(1/100) := by
      unfold RLProj.downMeanOf
      rw [hmean (-1) hfil]
      rfl
    refine ⟨hdown, ?_⟩
    intro rec hrec hpd
    rw [hall rec hrec, hpd, if_neg (by decide), if_neg (by decide), hdown]
  · intro hne
    unfold RLProj.simulate_future_12months
    rw [if_neg (by simpa [List.isEmpty_iff] using hne)]
    have h := congrArg List.length
      (RLProj.simLoop_map_ym Q (RLProj.rowAt df (df.length - 1)).rate_level
        (RLProj.rowAt df (df.length - 1)).pop_trend
        (RLProj.upMeanOf df) (RLProj.flatMeanOf df) (RLProj.downMeanOf df)
        12 1 (RLProj.rowAt df (df.length - 1)).direction
        (RLProj.rowAt df (df.length - 1)).mean_price
        (RLProj.parseYM (RLProj.rowAt df (df.length - 1)).ym) [])
    simpa [RLProj.periodsFrom_length] using h

/-- Witness for C8: the all-flat table has no up and no down rows, so the
up/down means fall back to the defaults and the forecast still has 12
records. -/
theorem claim_C8_witness :
    RLProj.upMeanOf RLProj.dfAllFlat = 1/100 ∧
    RLProj.downMeanOf RLProj.dfAllFlat = -(1/100) ∧
    (RLProj.simulate_future_12months RLProj.dfAllFlat
      RLProj.Qzero).length = 12 :=
  ⟨((claim_C8 RLProj.dfAllFlat RLProj.Qzero).1 (by decide)).1,
   ((claim_C8 RLProj.dfAllFlat RLProj.Qzero).2.2.1 (by decide)).1,
   (claim_C8 RLProj.dfAllFlat RLProj.Qzero).2.2.2 (by decide)⟩

/-- Claim C10: with learning rate in `[0, 1]` and discount in `[0, 1)`,
each Q-update on rewards in `{-1, +1}` preserves the bound
`|Q[s, a]| ≤ 1 / (1 - γ)`, and every training run over the housing
environment, started from the all-zero table, returns a table satisfying
the bound in every entry. -/
theorem claim_C10 (alpha gamma : ℚ) (ha0 : 0 ≤ alpha) (ha1 : alpha ≤ 1)
    (hg0 : 0 ≤ gamma) (hg1 : gamma < 1) :
    (∀ (Q : RLProj.QTable) (s a s2 : Nat) (r : ℚ), (r = 1 ∨ r = -1) →
      (∀ u b, |Q u b| ≤ 1 / (1 - gamma)) →
      ∀ u b, |RLProj.qUpdate Q s a r s2 alpha gamma u b| ≤
        1 / (1 - gamma)) ∧
    (∀ (df : List RLProj.Row) (episodes : Nat) (es ee dc : ℚ)
      (rand : Nat → Nat → ℚ) (randAct : Nat → Nat → Nat)
      (Q2 : RLProj.QTable) (rs : List ℚ),
      RLProj.train_q_learning df episodes alpha gamma es ee dc rand
        randAct = some (Q2, rs) →
      ∀ u b, |Q2 u b| ≤ 1 / (1 - gamma)) := by
  have hB0 : (0 : ℚ) ≤ 1 / (1 - gamma) :=
    le_of_lt (div_pos one_pos (by linarith : (0 : ℚ) < 1 - gamma))
  constructor
  · intro Q s a s2 r hr hQ
    refine RLProj.qUpdate_bound Q s a s2 r alpha gamma ha0 ha1 hg0 hg1
      ?_ hQ
    rcases hr with h | h <;> rw [h] <;> norm_num
  · intro df episodes es ee dc rand randAct Q2 rs heq
    refine RLProj.trainLoop_bound df alpha gamma es ee dc rand randAct
      ha0 ha1 hg0 hg1 episodes 0 RLProj.Qzero [] Q2 rs ?_ heq
    intro u b
    simpa [RLProj.Qzero] using hB0

/-- Witness for C10: one concrete Q-update from the zero table with reward
`+1`, `α = 1/10`, `γ = 9/10` stays within `1 / (1 - γ) = 10`. -/
theorem claim_C10_witness :
    |RLProj.qUpdate RLProj.Qzero 0 0 1 0 (1/10) (9/10) 0 0| ≤
      1 / (1 - (9 : ℚ)/10) :=
  (claim_C10 (1/10) (9/10) (by norm_num) (by norm_num) (by norm_num)
    (by norm_num)).1 RLProj.Qzero 0 0 0 1 (Or.inl rfl)
    (fun u b => by norm_num [RLProj.Qzero]) 0 0
